import Mathlib

/-!
Shallow embedding of the celeste-staff-meal validation, statistics and alert
services (src/staff_meal/models.py, src/ui/services/validation.py,
src/ui/services/statistics.py, src/ui/services/alerts.py), together with
theorems checking the specification claims against it.

Python dictionaries are modelled as insertion-ordered association lists
(update in place keeps the position, a new key is appended at the end),
Python `int` as `Int`, counts and lengths as `Nat`, and float rates as `Rat`
(the rate computations involved are exact divisions of small integers).
-/

/-- Menu items, from the `Item` enum in models.py, with their string values. -/
inductive Item where
  | MAKI_CALIFORNIA
  | MAKI
  | SASHIMI_SAUMON
  | SASHIMI_THON
  | GYOZA
  | YAKITORI_BOEUF_FROMAGE
  | YAKITORI_BOULETTE
  | SOUPE_MISO
  | RAMEN
  | SALADE_WAKAME
  | BOWL_SAUMON
  | SAUCE
  | MOCHI
deriving DecidableEq

/-- String value of each `Item` enum member (models.py). -/
def Item.value : Item → String
  | .MAKI_CALIFORNIA => "Boite de 6 California Rolls"
  | .MAKI => "Boite de 6 Maki"
  | .SASHIMI_SAUMON => "Boite de 6 Sashimi Saumon"
  | .SASHIMI_THON => "Boite de 6 Sashimi Thon"
  | .GYOZA => "Boite de 4 Gyoza"
  | .YAKITORI_BOEUF_FROMAGE => "Yakitori Boeuf Fromage x2"
  | .YAKITORI_BOULETTE => "Yakitori Boulette"
  | .SOUPE_MISO => "Soupe Miso"
  | .RAMEN => "Ramen"
  | .SALADE_WAKAME => "Salade Wakame"
  | .BOWL_SAUMON => "Bowl Saumon Teriyaki"
  | .SAUCE => "Sauce"
  | .MOCHI => "Boite de 2 Mochi"

/-- Order source platform (models.py). -/
inductive OrderSource where
  | UBER_EATS
  | DELIVEROO
deriving DecidableEq

/-- An item line of an order (models.py `OrderItem`). -/
structure OrderItem where
  item : Item
  quantity : Int
deriving DecidableEq

/-- Complete order (models.py `Order`). Pydantic requires `items` nonempty
(`min_length=1`); here that is a hypothesis where a claim needs it. -/
structure Order where
  order_id : String
  source : OrderSource
  items : List OrderItem
deriving DecidableEq

/-- Item quantity mismatch information (models.py `ItemMismatch`). -/
structure ItemMismatch where
  item : Item
  expected_quantity : Int
  detected_quantity : Int
deriving DecidableEq

/-- Item match information (models.py `ItemMatch`). -/
structure ItemMatch where
  item : Item
  expected_quantity : Int
  detected_quantity : Int
  is_match : Bool
deriving DecidableEq

/-- Result of comparing expected and detected orders (models.py
`ComparisonResult`). -/
structure ComparisonResult where
  is_complete : Bool
  missing_items : List ItemMismatch
  too_few_items : List ItemMismatch
  too_many_items : List ItemMismatch
  extra_items : List OrderItem
  matched_items : List ItemMatch
deriving DecidableEq

/-- Abstraction of a Python `datetime`: `key` is its position in the
chronological total order, `hour` its `.hour` (0-23 by construction) and
`weekday` its `.weekday()` (0-6 by construction). -/
structure Timestamp where
  key : Nat
  hour : Fin 24
  weekday : Fin 7
deriving DecidableEq

/-- Stored validation record (models.py `ValidationRecord`). The database
`id` field plays no role in the claims and is omitted. -/
structure ValidationRecord where
  order_id : String
  timestamp : Timestamp
  operator : Option String
  is_complete : Bool
  expected_order : Order
  detected_order : Order
  comparison_result : ComparisonResult
deriving DecidableEq

/-- Aggregated statistics (models.py `Statistics`). The two error maps are
insertion-ordered association lists, modelling Python dicts. -/
structure Statistics where
  total_orders : Nat
  complete_orders : Nat
  error_rate : Rat
  most_forgotten_items : List (Item × Nat)
  errors_by_hour : List (Nat × Nat)
  errors_by_day : List (String × Nat)

/-- Embedding of the `detected_items` dict of `compare_orders`
(validation.py): the dict maps each `item.item.value` to `item.quantity`,
a later entry with the same value overwriting an earlier one, and is read
with `.get(name, 0)`. The left fold returns the quantity of the last entry
whose item value is `name`, or 0 when there is none. -/
def detectedQty (items : List OrderItem) (name : String) : Int :=
  items.foldl (fun acc oi => if oi.item.value = name then oi.quantity else acc) 0

/-- Embedding of `compare_orders` (validation.py). The loop over
`expected.items` appends to each of the four per-entry lists exactly when
the corresponding branch of its `if not is_match` / `if detected_qty == 0` /
`elif detected_qty < expected_qty` / `else` ladder fires, so each list is a
`filterMap` (resp. `map` for `matched_items`) over `expected.items`; the
extra list is the comprehension filtering `detected.items`. -/
def compare_orders (expected detected : Order) : ComparisonResult :=
  let qtyOf := fun (e : OrderItem) => detectedQty detected.items e.item.value
  let missing_items := expected.items.filterMap fun e =>
    if ¬e.quantity = qtyOf e ∧ qtyOf e = 0 then
      some (ItemMismatch.mk e.item e.quantity 0)
    else none
  let too_few_items := expected.items.filterMap fun e =>
    if ¬e.quantity = qtyOf e ∧ ¬qtyOf e = 0 ∧ qtyOf e < e.quantity then
      some (ItemMismatch.mk e.item e.quantity (qtyOf e))
    else none
  let too_many_items := expected.items.filterMap fun e =>
    if ¬e.quantity = qtyOf e ∧ ¬qtyOf e = 0 ∧ ¬qtyOf e < e.quantity then
      some (ItemMismatch.mk e.item e.quantity (qtyOf e))
    else none
  let matched_items := expected.items.map fun e =>
    ItemMatch.mk e.item e.quantity (qtyOf e) (e.quantity == qtyOf e)
  let extra_items := detected.items.filter fun d =>
    !(expected.items.any fun e => e.item.value == d.item.value)
  { is_complete := missing_items.length == 0 && too_few_items.length == 0 &&
      too_many_items.length == 0 && extra_items.length == 0
    missing_items := missing_items
    too_few_items := too_few_items
    too_many_items := too_many_items
    extra_items := extra_items
    matched_items := matched_items }

/-- Python dict update `d[k] = d.get(k, 0) + 1` on an insertion-ordered
association list: a present key keeps its position and its value is bumped,
an absent key is appended with value 1. -/
def bumpKey {κ : Type} [DecidableEq κ] : List (κ × Nat) → κ → List (κ × Nat)
  | [], k => [(k, 1)]
  | (k1, v) :: t, k =>
    if k1 = k then (k1, v + 1) :: t else (k1, v) :: bumpKey t k

/-- Python dict conditional insert `if k not in d: d[k] = 0`: a present key
leaves the list unchanged, an absent key is appended with value 0. -/
def ensureKey {κ : Type} [DecidableEq κ] : List (κ × Nat) → κ → List (κ × Nat)
  | [], k => [(k, 0)]
  | (k1, v) :: t, k =>
    if k1 = k then (k1, v) :: t else (k1, v) :: ensureKey t k

/-- Loop `for k in ks: if k not in d: d[k] = 0` filling default buckets. -/
def fillKeys {κ : Type} [DecidableEq κ] (l : List (κ × Nat)) (ks : List κ) :
    List (κ × Nat) :=
  ks.foldl ensureKey l

/-- Keys of an association list, in order. -/
def keysOf {κ : Type} (l : List (κ × Nat)) : List κ := l.map Prod.fst

/-- Loop of statistics.py bumping one bucket `f r` per record `r` that has
`is_complete` false, starting from the empty dict. -/
def tally {κ : Type} [DecidableEq κ] (f : ValidationRecord → κ)
    (records : List ValidationRecord) : List (κ × Nat) :=
  records.foldl (fun acc r => if r.is_complete then acc else bumpKey acc (f r)) []

/-- Embedding of `get_errors_by_hour` (statistics.py): bump the hour bucket
of each incomplete record, then ensure all hours 0-23 are present with 0. -/
def get_errors_by_hour (records : List ValidationRecord) : List (Nat × Nat) :=
  fillKeys (tally (fun r => r.timestamp.hour.val) records) (List.range 24)

/-- Weekday names, in `weekday()` order (statistics.py `day_names`). -/
def dayNames : List String :=
  ["Monday", "Tuesday", "Wednesday", "Thursday", "Friday", "Saturday", "Sunday"]

/-- Lookup `day_names[weekday]` (total, since the index is below 7). -/
def dayName (d : Fin 7) : String := dayNames.getD d.val ""

/-- Embedding of `get_errors_by_day` (statistics.py): bump the weekday-name
bucket of each incomplete record, then ensure all seven names are present. -/
def get_errors_by_day (records : List ValidationRecord) : List (String × Nat) :=
  fillKeys (tally (fun r => dayName r.timestamp.weekday) records) dayNames

/-- Flattened list of missing items of incomplete records, in record order
(`forgotten_items` of `get_most_forgotten_items`, statistics.py). -/
def forgottenItems (records : List ValidationRecord) : List Item :=
  (records.filter fun r => !r.is_complete).flatMap fun r =>
    r.comparison_result.missing_items.map fun m => m.item

/-- First occurrences of each element, in order of first appearance. -/
def firstOccur (l : List Item) : List Item :=
  l.foldl (fun acc x => if x ∈ acc then acc else acc ++ [x]) []

/-- Embedding of `Counter(forgotten_items).items()`: one `(item, count)`
pair per distinct element, in insertion (first-occurrence) order. -/
def counterItems (l : List Item) : List (Item × Nat) :=
  (firstOccur l).map fun x => (x, l.count x)

/-- Sort key of `get_most_forgotten_items`: Python compares the tuples
`(-count, item.value)` in ascending lexicographic order. -/
def forgottenLe (a b : Item × Nat) : Bool :=
  decide (b.2 < a.2 ∨ (a.2 = b.2 ∧ a.1.value ≤ b.1.value))

/-- Embedding of `get_most_forgotten_items` (statistics.py). -/
def get_most_forgotten_items (records : List ValidationRecord) :
    List (Item × Nat) :=
  (counterItems (forgottenItems records)).mergeSort forgottenLe

/-- Embedding of `calculate_statistics` (statistics.py). An empty record
list short-circuits to all-zero statistics with empty maps. -/
def calculate_statistics (records : List ValidationRecord) : Statistics :=
  if records.isEmpty then
    { total_orders := 0
      complete_orders := 0
      error_rate := 0
      most_forgotten_items := []
      errors_by_hour := []
      errors_by_day := [] }
  else
    let total_orders := records.length
    let complete_orders := (records.filter fun r => r.is_complete).length
    let error_rate : Rat :=
      if 0 < total_orders then
        ((total_orders : Rat) - (complete_orders : Rat)) / (total_orders : Rat) * 100
      else 0
    { total_orders := total_orders
      complete_orders := complete_orders
      error_rate := error_rate
      most_forgotten_items := get_most_forgotten_items records
      errors_by_hour := get_errors_by_hour records
      errors_by_day := get_errors_by_day records }

/-- Alerts produced by `detect_alerts` (alerts.py), one constructor per
distinct alert construction site, carrying the numeric payload that the
source interpolates into the message string. -/
inductive Alert where
  | highErrorRate (rate threshold : Rat)
  | lowCompletion (rate threshold : Rat)
  | trendSpike (increase : Rat) (recent older : Nat)
  | forgottenItem (item : Item) (count : Nat)
  | peakHours (hours : List Nat) (maxErrors : Nat)
deriving DecidableEq

/-- Severity string attached to each alert construction site (alerts.py). -/
def Alert.severity : Alert → String
  | .highErrorRate _ _ => "critical"
  | .lowCompletion _ _ => "warning"
  | .trendSpike _ _ _ => "warning"
  | .forgottenItem _ _ => "warning"
  | .peakHours _ _ => "info"

/-- Python `sorted(records, key=lambda r: r.timestamp, reverse=True)`:
stable descending sort by timestamp. -/
def sortByTimestampDesc (records : List ValidationRecord) :
    List ValidationRecord :=
  records.mergeSort fun a b => decide (b.timestamp.key ≤ a.timestamp.key)

/-- Errors among the 7 most recent records (`recent_errors`, alerts.py). -/
def recentErrors (records : List ValidationRecord) : Nat :=
  (((sortByTimestampDesc records).take 7).filter fun r => !r.is_complete).length

/-- Errors among the next 7 records, positions 7-13 of the descending sort
(`older_errors`, alerts.py). -/
def olderErrors (records : List ValidationRecord) : Nat :=
  ((((sortByTimestampDesc records).drop 7).take 7).filter fun r => !r.is_complete).length

/-- Percentage increase of recent over older errors (alerts.py
`error_increase`, guarded by `older_errors > 0`). -/
def errorIncrease (recent older : Nat) : Rat :=
  if 0 < older then ((recent : Rat) - (older : Rat)) / (older : Rat) * 100 else 0

/-- Trend-spike block of `detect_alerts` (alerts.py): only evaluated with at
least 14 records, skipped when the older window has no errors, and firing
when the increase exceeds 50 percent. -/
def trendAlerts (records : List ValidationRecord) : List Alert :=
  if 14 ≤ records.length then
    let re := recentErrors records
    let oe := olderErrors records
    if 0 < oe then
      if 50 < errorIncrease re oe then [Alert.trendSpike (errorIncrease re oe) re oe]
      else []
    else []
  else []

/-- Frequently-forgotten-item block of `detect_alerts` (alerts.py): fires on
the head of `most_forgotten_items` when its count is at least 5. -/
def forgottenAlert (stats : Statistics) : List Alert :=
  match stats.most_forgotten_items with
  | [] => []
  | (top_item, top_count) :: _ =>
    if 5 ≤ top_count then [Alert.forgottenItem top_item top_count] else []

/-- Peak-error-hours block of `detect_alerts` (alerts.py). -/
def peakAlert (stats : Statistics) : List Alert :=
  if stats.errors_by_hour.isEmpty then []
  else
    let max_errors := (stats.errors_by_hour.map fun p => p.2).foldl max 0
    let peak_hours := (stats.errors_by_hour.filter fun p =>
      p.2 = max_errors ∧ 0 < p.2).map fun p => p.1
    if ¬peak_hours = [] ∧ 3 ≤ max_errors then
      [Alert.peakHours (peak_hours.mergeSort fun a b => decide (a ≤ b)) max_errors]
    else []

/-- Completion rate computed inside `detect_alerts` (alerts.py). -/
def completionRate (stats : Statistics) : Rat :=
  if 0 < stats.total_orders then
    (stats.complete_orders : Rat) / (stats.total_orders : Rat) * 100
  else 0

/-- Embedding of `detect_alerts` (alerts.py): empty record list returns no
alerts; otherwise the five blocks are appended in source order. -/
def detect_alerts (stats : Statistics) (records : List ValidationRecord)
    (error_threshold completion_threshold : Rat) : List Alert :=
  if records.isEmpty then []
  else
    (if error_threshold < stats.error_rate then
      [Alert.highErrorRate stats.error_rate error_threshold]
    else []) ++
    (if completionRate stats < completion_threshold then
      [Alert.lowCompletion (completionRate stats) completion_threshold]
    else []) ++
    trendAlerts records ++
    forgottenAlert stats ++
    peakAlert stats

/-- Sum of the values of an association list. -/
def valsSum {κ : Type} (l : List (κ × Nat)) : Nat := (l.map Prod.snd).sum

/-- Witness order with a single expected MAKI line. -/
def wExpectedB : Order := Order.mk "e1" OrderSource.DELIVEROO [OrderItem.mk Item.MAKI 2]

/-- Witness detected order carrying an unrelated item. -/
def wDetectedB : Order := Order.mk "d1" OrderSource.DELIVEROO [OrderItem.mk Item.SAUCE 1]

/-- Witness detected order with a duplicated unexpected MOCHI line. -/
def wDupD : Order :=
  Order.mk "d2" OrderSource.UBER_EATS [OrderItem.mk Item.MOCHI 2, OrderItem.mk Item.MOCHI 2]

/-- Witness detected order with two MOCHI lines of different quantities. -/
def wDupDetected : Order :=
  Order.mk "d3" OrderSource.UBER_EATS [OrderItem.mk Item.MOCHI 2, OrderItem.mk Item.MOCHI 5]

/-- Witness timestamp: 9 in the morning on a Monday. -/
def wTimestamp : Timestamp := Timestamp.mk 0 9 0

/-- Witness comparison result with one missing MOCHI line. -/
def wComparison : ComparisonResult :=
  ComparisonResult.mk false [ItemMismatch.mk Item.MOCHI 1 0] [] [] []
    [ItemMatch.mk Item.MOCHI 1 0 false]

/-- Witness order used inside the witness record. -/
def wOrderC : Order := Order.mk "w1" OrderSource.UBER_EATS [OrderItem.mk Item.MOCHI 1]

/-- Witness validation record: one incomplete validation. -/
def wRecord : ValidationRecord :=
  ValidationRecord.mk "w1" wTimestamp none false wOrderC wOrderC wComparison

/-! ## Helper lemmas about `compare_orders` -/

/-- Rewriting a `filterMap` whose function is a guarded `some` as a mapped
filter. -/
theorem filterMap_ite_eq_map_filter {α β : Type} (p : α → Prop) [DecidablePred p]
    (f : α → β) (l : List α) :
    (l.filterMap fun a => if p a then some (f a) else none) =
      (l.filter fun a => decide (p a)).map f := by
  induction l with
  | nil => rfl
  | cons a t ih => by_cases h : p a <;> simp [h, ih]

/-- Membership in the missing list of `compare_orders`. -/
theorem mem_missing_iff (E D : Order) (m : ItemMismatch) :
    m ∈ (compare_orders E D).missing_items ↔
      ∃ e ∈ E.items,
        (¬e.quantity = detectedQty D.items e.item.value ∧
          detectedQty D.items e.item.value = 0) ∧
        ItemMismatch.mk e.item e.quantity 0 = m := by
  simp [compare_orders, List.mem_filterMap, Option.ite_none_right_eq_some]

/-- Membership in the too-few list of `compare_orders`. -/
theorem mem_too_few_iff (E D : Order) (m : ItemMismatch) :
    m ∈ (compare_orders E D).too_few_items ↔
      ∃ e ∈ E.items,
        (¬e.quantity = detectedQty D.items e.item.value ∧
          ¬detectedQty D.items e.item.value = 0 ∧
          detectedQty D.items e.item.value < e.quantity) ∧
        ItemMismatch.mk e.item e.quantity (detectedQty D.items e.item.value) = m := by
  simp [compare_orders, List.mem_filterMap, Option.ite_none_right_eq_some]

/-- Membership in the too-many list of `compare_orders`. -/
theorem mem_too_many_iff (E D : Order) (m : ItemMismatch) :
    m ∈ (compare_orders E D).too_many_items ↔
      ∃ e ∈ E.items,
        (¬e.quantity = detectedQty D.items e.item.value ∧
          ¬detectedQty D.items e.item.value = 0 ∧
          ¬detectedQty D.items e.item.value < e.quantity) ∧
        ItemMismatch.mk e.item e.quantity (detectedQty D.items e.item.value) = m := by
  simp [compare_orders, List.mem_filterMap, Option.ite_none_right_eq_some]

/-- C1: for Orders `E` and `D` with `E.items` nonempty,
`compare_orders(E, D).is_complete` is true exactly when all four lists
`missing_items`, `too_few_items`, `too_many_items` and `extra_items` of the
result are empty. -/
theorem compare_orders_is_complete_iff (E D : Order) (hE : E.items ≠ []) :
    (compare_orders E D).is_complete = true ↔
      ((compare_orders E D).missing_items = [] ∧
        (compare_orders E D).too_few_items = [] ∧
        (compare_orders E D).too_many_items = [] ∧
        (compare_orders E D).extra_items = []) := by
  simp only [compare_orders, Bool.and_eq_true, beq_iff_eq, List.length_eq_zero]
  tauto

/-- Witness evaluating C1 on a concrete order compared with itself. -/
theorem compare_orders_is_complete_iff_witness :
    (compare_orders (Order.mk "o1" OrderSource.UBER_EATS [OrderItem.mk Item.MOCHI 1])
        (Order.mk "o1" OrderSource.UBER_EATS [OrderItem.mk Item.MOCHI 1])).is_complete = true :=
  (compare_orders_is_complete_iff
      (Order.mk "o1" OrderSource.UBER_EATS [OrderItem.mk Item.MOCHI 1])
      (Order.mk "o1" OrderSource.UBER_EATS [OrderItem.mk Item.MOCHI 1])
      (by decide)).mpr (by decide)

/-- C4: `compare_orders(E, D).matched_items` has exactly one entry per
element of `E.items`, in the order of `E.items` (the mapped items coincide),
regardless of whether each entry matches. -/
theorem compare_orders_matched_per_expected (E D : Order) :
    (compare_orders E D).matched_items.length = E.items.length ∧
    (compare_orders E D).matched_items.map (fun m => m.item) =
      E.items.map fun e => e.item := by
  constructor
  · simp [compare_orders]
  · simp [compare_orders, List.map_map, Function.comp]

/-- A record in the missing list pins its entry: the expected quantity
differs from the detected one, the detected one is 0, and the stored
detected quantity is 0. -/
theorem of_mem_missing (E D : Order) {it : Item} {qe dq : Int}
    (h : ItemMismatch.mk it qe dq ∈ (compare_orders E D).missing_items) :
    ¬qe = detectedQty D.items it.value ∧ detectedQty D.items it.value = 0 ∧
      dq = 0 := by
  rw [mem_missing_iff] at h
  obtain ⟨e1, _, ⟨h1, h2⟩, heq⟩ := h
  simp only [ItemMismatch.mk.injEq] at heq
  obtain ⟨hi, hq, hd⟩ := heq
  subst hi; subst hq
  exact ⟨h1, h2, hd.symm⟩

/-- A record in the too-few list pins its entry: nonzero detected quantity
strictly below the expected one, stored as the detected quantity. -/
theorem of_mem_too_few (E D : Order) {it : Item} {qe dq : Int}
    (h : ItemMismatch.mk it qe dq ∈ (compare_orders E D).too_few_items) :
    ¬qe = detectedQty D.items it.value ∧ ¬detectedQty D.items it.value = 0 ∧
      detectedQty D.items it.value < qe ∧ dq = detectedQty D.items it.value := by
  rw [mem_too_few_iff] at h
  obtain ⟨e1, _, ⟨h1, h2, h3⟩, heq⟩ := h
  simp only [ItemMismatch.mk.injEq] at heq
  obtain ⟨hi, hq, hd⟩ := heq
  subst hi; subst hq
  exact ⟨h1, h2, h3, hd.symm⟩

/-- A record in the too-many list pins its entry: nonzero detected quantity
not below the expected one, stored as the detected quantity. -/
theorem of_mem_too_many (E D : Order) {it : Item} {qe dq : Int}
    (h : ItemMismatch.mk it qe dq ∈ (compare_orders E D).too_many_items) :
    ¬qe = detectedQty D.items it.value ∧ ¬detectedQty D.items it.value = 0 ∧
      ¬detectedQty D.items it.value < qe ∧ dq = detectedQty D.items it.value := by
  rw [mem_too_many_iff] at h
  obtain ⟨e1, _, ⟨h1, h2, h3⟩, heq⟩ := h
  simp only [ItemMismatch.mk.injEq] at heq
  obtain ⟨hi, hq, hd⟩ := heq
  subst hi; subst hq
  exact ⟨h1, h2, h3, hd.symm⟩

/-- C2: classification of each expected entry of `compare_orders` against
the detected quantity looked up with default 0. A matching quantity puts
the entry in no mismatch list; otherwise a detected quantity of 0 puts it
in the missing list (stored with detected quantity 0) and nowhere else —
this case is checked first, so it takes priority; otherwise a positive
detected quantity below the expected one puts it in the too-few list only;
otherwise a nonzero detected quantity above the expected one puts it in the
too-many list only; and every non-matching entry lands in exactly one of
the three mismatch lists. -/
theorem compare_orders_entry_classification (E D : Order) (e : OrderItem)
    (he : e ∈ E.items) :
    (detectedQty D.items e.item.value = e.quantity →
      ItemMismatch.mk e.item e.quantity 0 ∉ (compare_orders E D).missing_items ∧
      ItemMismatch.mk e.item e.quantity (detectedQty D.items e.item.value) ∉
        (compare_orders E D).too_few_items ∧
      ItemMismatch.mk e.item e.quantity (detectedQty D.items e.item.value) ∉
        (compare_orders E D).too_many_items) ∧
    (¬detectedQty D.items e.item.value = e.quantity →
      detectedQty D.items e.item.value = 0 →
      ItemMismatch.mk e.item e.quantity 0 ∈ (compare_orders E D).missing_items ∧
      ItemMismatch.mk e.item e.quantity (detectedQty D.items e.item.value) ∉
        (compare_orders E D).too_few_items ∧
      ItemMismatch.mk e.item e.quantity (detectedQty D.items e.item.value) ∉
        (compare_orders E D).too_many_items) ∧
    (0 < detectedQty D.items e.item.value →
      detectedQty D.items e.item.value < e.quantity →
      ItemMismatch.mk e.item e.quantity (detectedQty D.items e.item.value) ∈
        (compare_orders E D).too_few_items ∧
      ItemMismatch.mk e.item e.quantity 0 ∉ (compare_orders E D).missing_items ∧
      ItemMismatch.mk e.item e.quantity (detectedQty D.items e.item.value) ∉
        (compare_orders E D).too_many_items) ∧
    (¬detectedQty D.items e.item.value = 0 →
      e.quantity < detectedQty D.items e.item.value →
      ItemMismatch.mk e.item e.quantity (detectedQty D.items e.item.value) ∈
        (compare_orders E D).too_many_items ∧
      ItemMismatch.mk e.item e.quantity 0 ∉ (compare_orders E D).missing_items ∧
      ItemMismatch.mk e.item e.quantity (detectedQty D.items e.item.value) ∉
        (compare_orders E D).too_few_items) ∧
    (¬detectedQty D.items e.item.value = e.quantity →
      (ItemMismatch.mk e.item e.quantity 0 ∈ (compare_orders E D).missing_items ∧
        ItemMismatch.mk e.item e.quantity (detectedQty D.items e.item.value) ∉
          (compare_orders E D).too_few_items ∧
        ItemMismatch.mk e.item e.quantity (detectedQty D.items e.item.value) ∉
          (compare_orders E D).too_many_items) ∨
      (ItemMismatch.mk e.item e.quantity 0 ∉ (compare_orders E D).missing_items ∧
        ItemMismatch.mk e.item e.quantity (detectedQty D.items e.item.value) ∈
          (compare_orders E D).too_few_items ∧
        ItemMismatch.mk e.item e.quantity (detectedQty D.items e.item.value) ∉
          (compare_orders E D).too_many_items) ∨
      (ItemMismatch.mk e.item e.quantity 0 ∉ (compare_orders E D).missing_items ∧
        ItemMismatch.mk e.item e.quantity (detectedQty D.items e.item.value) ∉
          (compare_orders E D).too_few_items ∧
        ItemMismatch.mk e.item e.quantity (detectedQty D.items e.item.value) ∈
          (compare_orders E D).too_many_items)) := by
  refine ⟨?_, ?_, ?_, ?_, ?_⟩
  · intro hq
    refine ⟨?_, ?_, ?_⟩
    · intro h; have := of_mem_missing E D h; omega
    · intro h; have := of_mem_too_few E D h; omega
    · intro h; have := of_mem_too_many E D h; omega
  · intro hne hz
    refine ⟨?_, ?_, ?_⟩
    · exact (mem_missing_iff E D _).mpr ⟨e, he, ⟨fun hx => hne hx.symm, hz⟩, rfl⟩
    · intro h; have := of_mem_too_few E D h; omega
    · intro h; have := of_mem_too_many E D h; omega
  · intro hpos hlt
    refine ⟨?_, ?_, ?_⟩
    · exact (mem_too_few_iff E D _).mpr ⟨e, he, ⟨by omega, by omega, hlt⟩, rfl⟩
    · intro h; have := of_mem_missing E D h; omega
    · intro h; have := of_mem_too_many E D h; omega
  · intro hnz hgt
    refine ⟨?_, ?_, ?_⟩
    · exact (mem_too_many_iff E D _).mpr ⟨e, he, ⟨by omega, hnz, by omega⟩, rfl⟩
    · intro h; have := of_mem_missing E D h; omega
    · intro h; have := of_mem_too_few E D h; omega
  · intro hne
    by_cases hz : detectedQty D.items e.item.value = 0
    · refine Or.inl ⟨(mem_missing_iff E D _).mpr ⟨e, he, ⟨fun hx => hne hx.symm, hz⟩, rfl⟩, ?_, ?_⟩
      · intro h; have := of_mem_too_few E D h; omega
      · intro h; have := of_mem_too_many E D h; omega
    · by_cases hlt : detectedQty D.items e.item.value < e.quantity
      · refine Or.inr (Or.inl ⟨?_, ?_, ?_⟩)
        · intro h; have := of_mem_missing E D h; omega
        · exact (mem_too_few_iff E D _).mpr ⟨e, he, ⟨fun hx => hne hx.symm, hz, hlt⟩, rfl⟩
        · intro h; have := of_mem_too_many E D h; omega
      · refine Or.inr (Or.inr ⟨?_, ?_, ?_⟩)
        · intro h; have := of_mem_missing E D h; omega
        · intro h; have := of_mem_too_few E D h; omega
        · exact (mem_too_many_iff E D _).mpr ⟨e, he, ⟨fun hx => hne hx.symm, hz, hlt⟩, rfl⟩

/-- Witness evaluating C2 where the expected MAKI line is not detected at
all: it lands in the missing list. -/
theorem compare_orders_entry_classification_witness :
    ItemMismatch.mk Item.MAKI 2 0 ∈
      (compare_orders wExpectedB wDetectedB).missing_items :=
  ((compare_orders_entry_classification wExpectedB wDetectedB
      (OrderItem.mk Item.MAKI 2) (by decide)).2.1 (by decide) (by decide)).1

/-- The extra list of `compare_orders` is definitionally the filter of the
detected items whose value no expected entry carries. -/
theorem extra_eq_filter (E D : Order) :
    (compare_orders E D).extra_items =
      D.items.filter fun d => !(E.items.any fun e => e.item.value == d.item.value) :=
  rfl

/-- The matched list of `compare_orders` is definitionally the map over the
expected items. -/
theorem matched_eq_map (E D : Order) :
    (compare_orders E D).matched_items = E.items.map fun e =>
      ItemMatch.mk e.item e.quantity (detectedQty D.items e.item.value)
        (e.quantity == detectedQty D.items e.item.value) :=
  rfl

/-- An unexpected entry keeps its full multiplicity in the extra list. -/
theorem count_extra_of_not_expected (E D : Order) (x : OrderItem)
    (hx : ∀ e ∈ E.items, ¬e.item.value = x.item.value) :
    (compare_orders E D).extra_items.count x = D.items.count x := by
  rw [extra_eq_filter]
  apply List.count_filter
  simp only [Bool.not_eq_true', List.any_eq_false, beq_iff_eq]
  exact hx

/-- An expected value never appears in the extra list. -/
theorem count_extra_of_expected (E D : Order) (x : OrderItem)
    (hx : ∃ e ∈ E.items, e.item.value = x.item.value) :
    (compare_orders E D).extra_items.count x = 0 := by
  rw [List.count_eq_zero, extra_eq_filter]
  intro hmem
  rw [List.mem_filter] at hmem
  obtain ⟨e, he, hv⟩ := hx
  have h2 := hmem.2
  simp only [Bool.not_eq_true', List.any_eq_false, beq_iff_eq] at h2
  exact h2 e he hv

/-- C7: `extra_items` is the subsequence of `D.items` whose item value
occurs in no expected entry, in `D.items` order with full multiplicity
(duplicates kept); the three mismatch lists are order-preserving images of
subsequences of `E.items`, and `matched_items` is the order-preserving
image of `E.items` itself — no list is sorted. -/
theorem compare_orders_extra_and_ordering (E D : Order) :
    (compare_orders E D).extra_items.Sublist D.items ∧
    (∀ x : OrderItem,
      ((∃ e ∈ E.items, e.item.value = x.item.value) →
        (compare_orders E D).extra_items.count x = 0) ∧
      ((∀ e ∈ E.items, ¬e.item.value = x.item.value) →
        (compare_orders E D).extra_items.count x = D.items.count x)) ∧
    (∃ sub : List OrderItem, sub.Sublist E.items ∧
      (compare_orders E D).missing_items =
        sub.map fun e => ItemMismatch.mk e.item e.quantity 0) ∧
    (∃ sub : List OrderItem, sub.Sublist E.items ∧
      (compare_orders E D).too_few_items =
        sub.map fun e =>
          ItemMismatch.mk e.item e.quantity (detectedQty D.items e.item.value)) ∧
    (∃ sub : List OrderItem, sub.Sublist E.items ∧
      (compare_orders E D).too_many_items =
        sub.map fun e =>
          ItemMismatch.mk e.item e.quantity (detectedQty D.items e.item.value)) ∧
    (compare_orders E D).matched_items = E.items.map fun e =>
      ItemMatch.mk e.item e.quantity (detectedQty D.items e.item.value)
        (e.quantity == detectedQty D.items e.item.value) := by
  refine ⟨?_, ?_, ?_, ?_, ?_, matched_eq_map E D⟩
  · rw [extra_eq_filter]; exact List.filter_sublist _
  · intro x
    exact ⟨count_extra_of_expected E D x, count_extra_of_not_expected E D x⟩
  · exact ⟨_, List.filter_sublist _, filterMap_ite_eq_map_filter _ _ _⟩
  · exact ⟨_, List.filter_sublist _, filterMap_ite_eq_map_filter _ _ _⟩
  · exact ⟨_, List.filter_sublist _, filterMap_ite_eq_map_filter _ _ _⟩

/-- Witness evaluating C7: both duplicate unexpected MOCHI lines survive in
the extra list. -/
theorem compare_orders_extra_and_ordering_witness :
    (compare_orders wExpectedB wDupD).extra_items.count (OrderItem.mk Item.MOCHI 2) =
      wDupD.items.count (OrderItem.mk Item.MOCHI 2) :=
  ((compare_orders_extra_and_ordering wExpectedB wDupD).2.1
    (OrderItem.mk Item.MOCHI 2)).2 (by decide)

/-- Folding the detected-quantity update over entries that never match the
looked-up value leaves the accumulator unchanged. -/
theorem foldl_detectedQty_no_match (l : List OrderItem) (name : String) (q : Int)
    (h : ∀ x ∈ l, ¬x.item.value = name) :
    l.foldl (fun acc oi => if oi.item.value = name then oi.quantity else acc) q = q := by
  induction l generalizing q with
  | nil => rfl
  | cons a t ih =>
    simp only [List.foldl_cons]
    rw [if_neg (h a (by simp))]
    exact ih _ fun x hx => h x (by simp [hx])

/-- C8: when the detected order lists the same item value in several
entries, the lookup keeps the last entry's quantity, so every matching
expected entry is classified against that last quantity (its MatchEntry
stores it), while the extra list still carries each duplicate separately
when the value is not expected. -/
theorem compare_orders_duplicate_detected (E D : Order) (l1 l2 : List OrderItem)
    (d : OrderItem) (hD : D.items = l1 ++ d :: l2)
    (hlast : ∀ x ∈ l2, ¬x.item.value = d.item.value) :
    detectedQty D.items d.item.value = d.quantity ∧
    (∀ e ∈ E.items, e.item.value = d.item.value →
      ItemMatch.mk e.item e.quantity d.quantity (e.quantity == d.quantity) ∈
        (compare_orders E D).matched_items) ∧
    ((∀ e ∈ E.items, ¬e.item.value = d.item.value) →
      ∀ x : OrderItem, x.item.value = d.item.value →
        (compare_orders E D).extra_items.count x = D.items.count x) := by
  have hq : detectedQty D.items d.item.value = d.quantity := by
    rw [hD]
    unfold detectedQty
    rw [List.foldl_append]
    simp only [List.foldl_cons, if_true]
    exact foldl_detectedQty_no_match l2 _ _ hlast
  refine ⟨hq, ?_, ?_⟩
  · intro e he hv
    rw [matched_eq_map]
    refine List.mem_map.mpr ⟨e, he, ?_⟩
    rw [hv, hq]
  · intro hnone x hx
    exact count_extra_of_not_expected E D x fun e he => by
      rw [hx]; exact hnone e he

/-- Witness evaluating C8: the lookup returns the last duplicate's
quantity. -/
theorem compare_orders_duplicate_detected_witness :
    detectedQty wDupDetected.items (Item.value Item.MOCHI) = 5 :=
  (compare_orders_duplicate_detected wExpectedB wDupDetected
    [OrderItem.mk Item.MOCHI 2] [] (OrderItem.mk Item.MOCHI 5) rfl (by decide)).1

/-! ## Helper lemmas about the dict model -/

/-- Keys after a bump: unchanged when present, appended when absent. -/
theorem keysOf_bumpKey {κ : Type} [DecidableEq κ] (l : List (κ × Nat)) (k : κ) :
    keysOf (bumpKey l k) =
      if k ∈ keysOf l then keysOf l else keysOf l ++ [k] := by
  induction l with
  | nil => simp [bumpKey, keysOf]
  | cons a t ih =>
    obtain ⟨k1, v⟩ := a
    by_cases h : k1 = k
    · subst h
      simp [bumpKey, keysOf]
    · simp only [bumpKey, if_neg h, keysOf, List.map_cons] at ih ⊢
      rw [ih]
      by_cases h2 : k ∈ t.map Prod.fst
      · simp [h2, Ne.symm h]
      · simp [h2, Ne.symm h]

/-- Keys after an ensure: unchanged when present, appended when absent. -/
theorem keysOf_ensureKey {κ : Type} [DecidableEq κ] (l : List (κ × Nat)) (k : κ) :
    keysOf (ensureKey l k) =
      if k ∈ keysOf l then keysOf l else keysOf l ++ [k] := by
  induction l with
  | nil => simp [ensureKey, keysOf]
  | cons a t ih =>
    obtain ⟨k1, v⟩ := a
    by_cases h : k1 = k
    · subst h
      simp [ensureKey, keysOf]
    · simp only [ensureKey, if_neg h, keysOf, List.map_cons] at ih ⊢
      rw [ih]
      by_cases h2 : k ∈ t.map Prod.fst
      · simp [h2, Ne.symm h]
      · simp [h2, Ne.symm h]

/-- Membership among the keys after a bump. -/
theorem mem_keysOf_bumpKey {κ : Type} [DecidableEq κ] (l : List (κ × Nat))
    (k x : κ) : x ∈ keysOf (bumpKey l k) ↔ x ∈ keysOf l ∨ x = k := by
  rw [keysOf_bumpKey]
  by_cases h : k ∈ keysOf l
  · rw [if_pos h]
    constructor
    · exact Or.inl
    · rintro (hx | rfl)
      exacts [hx, h]
  · rw [if_neg h]
    simp

/-- Membership among the keys after an ensure. -/
theorem mem_keysOf_ensureKey {κ : Type} [DecidableEq κ] (l : List (κ × Nat))
    (k x : κ) : x ∈ keysOf (ensureKey l k) ↔ x ∈ keysOf l ∨ x = k := by
  rw [keysOf_ensureKey]
  by_cases h : k ∈ keysOf l
  · rw [if_pos h]
    constructor
    · exact Or.inl
    · rintro (hx | rfl)
      exacts [hx, h]
  · rw [if_neg h]
    simp

/-- A bump preserves distinctness of the keys. -/
theorem nodup_keysOf_bumpKey {κ : Type} [DecidableEq κ] (l : List (κ × Nat))
    (k : κ) (h : (keysOf l).Nodup) : (keysOf (bumpKey l k)).Nodup := by
  rw [keysOf_bumpKey]
  by_cases hk : k ∈ keysOf l
  · rwa [if_pos hk]
  · rw [if_neg hk]
    simp [List.nodup_append, h, hk]

/-- An ensure preserves distinctness of the keys. -/
theorem nodup_keysOf_ensureKey {κ : Type} [DecidableEq κ] (l : List (κ × Nat))
    (k : κ) (h : (keysOf l).Nodup) : (keysOf (ensureKey l k)).Nodup := by
  rw [keysOf_ensureKey]
  by_cases hk : k ∈ keysOf l
  · rwa [if_pos hk]
  · rw [if_neg hk]
    simp [List.nodup_append, h, hk]

/-- A bump adds exactly one to the total of the values. -/
theorem valsSum_bumpKey {κ : Type} [DecidableEq κ] (l : List (κ × Nat)) (k : κ) :
    valsSum (bumpKey l k) = valsSum l + 1 := by
  induction l with
  | nil => simp [bumpKey, valsSum]
  | cons a t ih =>
    obtain ⟨k1, v⟩ := a
    by_cases h : k1 = k
    · subst h
      simp [bumpKey, valsSum]
      omega
    · simp only [bumpKey, if_neg h, valsSum, List.map_cons, List.sum_cons] at ih ⊢
      omega

/-- An ensure leaves the total of the values unchanged. -/
theorem valsSum_ensureKey {κ : Type} [DecidableEq κ] (l : List (κ × Nat)) (k : κ) :
    valsSum (ensureKey l k) = valsSum l := by
  induction l with
  | nil => simp [ensureKey, valsSum]
  | cons a t ih =>
    obtain ⟨k1, v⟩ := a
    by_cases h : k1 = k
    · subst h
      simp [ensureKey, valsSum]
    · simp only [ensureKey, if_neg h, valsSum, List.map_cons, List.sum_cons] at ih ⊢
      omega

/-- An ensure keeps every existing entry. -/
theorem mem_ensureKey_of_mem {κ : Type} [DecidableEq κ] {l : List (κ × Nat)}
    {k1 : κ} {v : Nat} (k : κ) (h : (k1, v) ∈ l) : (k1, v) ∈ ensureKey l k := by
  induction l with
  | nil => cases h
  | cons a t ih =>
    obtain ⟨k2, v2⟩ := a
    by_cases hk : k2 = k
    · subst hk
      simpa [ensureKey] using h
    · rcases List.mem_cons.mp h with heq | ht
      · simp [ensureKey, hk, heq]
      · simp [ensureKey, hk, ih ht]

/-- Ensuring an absent key appends it with value 0. -/
theorem mem_ensureKey_self {κ : Type} [DecidableEq κ] {l : List (κ × Nat)}
    {k : κ} (h : k ∉ keysOf l) : (k, 0) ∈ ensureKey l k := by
  induction l with
  | nil => simp [ensureKey]
  | cons a t ih =>
    obtain ⟨k1, v⟩ := a
    simp only [keysOf, List.map_cons, List.mem_cons, not_or] at h
    rw [ensureKey, if_neg fun hk => h.1 hk.symm]
    exact List.mem_cons_of_mem _ (ih h.2)

/-- Membership among the keys after filling defaults. -/
theorem mem_keysOf_fillKeys {κ : Type} [DecidableEq κ] (ks : List κ) :
    ∀ (l : List (κ × Nat)) (x : κ),
      x ∈ keysOf (fillKeys l ks) ↔ x ∈ keysOf l ∨ x ∈ ks := by
  induction ks with
  | nil => simp [fillKeys]
  | cons a t ih =>
    intro l x
    rw [fillKeys, List.foldl_cons, ← fillKeys, ih, mem_keysOf_ensureKey]
    constructor
    · rintro ((hx | rfl) | hx)
      exacts [Or.inl hx, Or.inr (List.mem_cons_self _ _), Or.inr (List.mem_cons_of_mem _ hx)]
    · rintro (hx | hx)
      · exact Or.inl (Or.inl hx)
      · rcases List.mem_cons.mp hx with rfl | hx
        exacts [Or.inl (Or.inr rfl), Or.inr hx]

/-- Filling defaults preserves distinctness of the keys. -/
theorem nodup_keysOf_fillKeys {κ : Type} [DecidableEq κ] (ks : List κ) :
    ∀ l : List (κ × Nat), (keysOf l).Nodup → (keysOf (fillKeys l ks)).Nodup := by
  induction ks with
  | nil => exact fun l h => h
  | cons a t ih =>
    intro l h
    rw [fillKeys, List.foldl_cons, ← fillKeys]
    exact ih _ (nodup_keysOf_ensureKey l a h)

/-- Filling defaults leaves the total of the values unchanged. -/
theorem valsSum_fillKeys {κ : Type} [DecidableEq κ] (ks : List κ) :
    ∀ l : List (κ × Nat), valsSum (fillKeys l ks) = valsSum l := by
  induction ks with
  | nil => exact fun l => rfl
  | cons a t ih =>
    intro l
    rw [fillKeys, List.foldl_cons, ← fillKeys, ih, valsSum_ensureKey]

/-- Filling defaults keeps every existing entry. -/
theorem mem_fillKeys_of_mem {κ : Type} [DecidableEq κ] (ks : List κ) :
    ∀ {l : List (κ × Nat)} {k : κ} {v : Nat},
      (k, v) ∈ l → (k, v) ∈ fillKeys l ks := by
  induction ks with
  | nil => exact fun h => h
  | cons a t ih =>
    intro l k v h
    rw [fillKeys, List.foldl_cons, ← fillKeys]
    exact ih (mem_ensureKey_of_mem a h)

/-- A key among the filled defaults but absent from the dict ends up with
value 0. -/
theorem mem_fillKeys_zero {κ : Type} [DecidableEq κ] (ks : List κ) :
    ∀ {l : List (κ × Nat)} {k : κ},
      k ∈ ks → k ∉ keysOf l → (k, 0) ∈ fillKeys l ks := by
  induction ks with
  | nil => intro l k h; cases h
  | cons a t ih =>
    intro l k hks h
    rw [fillKeys, List.foldl_cons, ← fillKeys]
    by_cases hka : k = a
    · subst hka
      exact mem_fillKeys_of_mem t (mem_ensureKey_self h)
    · have hkt : k ∈ t := by
        rcases List.mem_cons.mp hks with heq | ht
        · exact absurd heq hka
        · exact ht
      refine ih hkt ?_
      rw [mem_keysOf_ensureKey]
      rintro (hx | rfl)
      · exact h hx
      · exact hka rfl

/-- Membership among the keys of a tally: exactly the bucket values of the
incomplete records. -/
theorem mem_keysOf_tally {κ : Type} [DecidableEq κ] (f : ValidationRecord → κ)
    (records : List ValidationRecord) :
    ∀ (acc : List (κ × Nat)) (x : κ),
      x ∈ keysOf (records.foldl
          (fun acc r => if r.is_complete then acc else bumpKey acc (f r)) acc) ↔
        x ∈ keysOf acc ∨ ∃ r ∈ records, r.is_complete = false ∧ x = f r := by
  induction records with
  | nil => simp
  | cons r t ih =>
    intro acc x
    rw [List.foldl_cons]
    by_cases h : r.is_complete
    · rw [if_pos h, ih]
      simp [List.exists_mem_cons_iff, h]
    · rw [if_neg h, ih, mem_keysOf_bumpKey]
      rw [Bool.not_eq_true] at h
      simp only [List.exists_mem_cons_iff, h, true_and]
      tauto

/-- A tally has distinct keys. -/
theorem nodup_keysOf_tally {κ : Type} [DecidableEq κ] (f : ValidationRecord → κ)
    (records : List ValidationRecord) :
    ∀ acc : List (κ × Nat), (keysOf acc).Nodup →
      (keysOf (records.foldl
        (fun acc r => if r.is_complete then acc else bumpKey acc (f r)) acc)).Nodup := by
  induction records with
  | nil => exact fun acc h => h
  | cons r t ih =>
    intro acc h
    rw [List.foldl_cons]
    by_cases hc : r.is_complete
    · rw [if_pos hc]
      exact ih acc h
    · rw [if_neg hc]
      exact ih _ (nodup_keysOf_bumpKey acc (f r) h)

/-- The values of a tally total the number of incomplete records. -/
theorem valsSum_tally {κ : Type} [DecidableEq κ] (f : ValidationRecord → κ)
    (records : List ValidationRecord) :
    ∀ acc : List (κ × Nat),
      valsSum (records.foldl
          (fun acc r => if r.is_complete then acc else bumpKey acc (f r)) acc) =
        valsSum acc + records.countP fun r => !r.is_complete := by
  induction records with
  | nil => simp
  | cons r t ih =>
    intro acc
    rw [List.foldl_cons, List.countP_cons]
    by_cases h : r.is_complete
    · rw [if_pos h, ih]
      simp [h]
    · rw [if_neg h, ih, valsSum_bumpKey]
      rw [Bool.not_eq_true] at h
      simp [h]
      omega

/-- Key membership for a tally started from the empty dict. -/
theorem mem_keysOf_tally_nil {κ : Type} [DecidableEq κ] (f : ValidationRecord → κ)
    (records : List ValidationRecord) (x : κ) :
    x ∈ keysOf (tally f records) ↔
      ∃ r ∈ records, r.is_complete = false ∧ x = f r := by
  rw [tally, mem_keysOf_tally]
  simp [keysOf]

/-- A tally started from the empty dict has distinct keys. -/
theorem nodup_keysOf_tally_nil {κ : Type} [DecidableEq κ]
    (f : ValidationRecord → κ) (records : List ValidationRecord) :
    (keysOf (tally f records)).Nodup := by
  rw [tally]
  exact nodup_keysOf_tally f records [] (by simp [keysOf])

/-- Value total of a tally started from the empty dict. -/
theorem valsSum_tally_nil {κ : Type} [DecidableEq κ] (f : ValidationRecord → κ)
    (records : List ValidationRecord) :
    valsSum (tally f records) = records.countP fun r => !r.is_complete := by
  rw [tally, valsSum_tally]
  simp [valsSum]

/-- Every weekday index maps into the day-name table. -/
theorem dayName_mem : ∀ d : Fin 7, dayName d ∈ dayNames := by decide

/-- The day-name table has no duplicates. -/
theorem dayNames_nodup : dayNames.Nodup := by decide

/-- Unfolding of `calculate_statistics` on a nonempty record list. -/
theorem calculate_statistics_ne (records : List ValidationRecord)
    (h : records ≠ []) :
    calculate_statistics records = Statistics.mk records.length
      ((records.filter fun r => r.is_complete).length)
      (if 0 < records.length then
        ((records.length : Rat) - (((records.filter fun r => r.is_complete).length : Nat) : Rat)) /
          (records.length : Rat) * 100
      else 0)
      (get_most_forgotten_items records) (get_errors_by_hour records)
      (get_errors_by_day records) := by
  rw [calculate_statistics, if_neg (by simp [List.isEmpty_iff]; exact h)]

/-- C3 counterexample: on the empty record list `calculate_statistics`
returns empty hour and day maps, so `errors_by_hour` does not have the 24
keys the claim requires for every list. -/
theorem calculate_statistics_empty_maps :
    (calculate_statistics []).errors_by_hour = [] ∧
    (calculate_statistics []).errors_by_day = [] ∧
    ¬(calculate_statistics []).errors_by_hour.length = 24 ∧
    ¬(calculate_statistics []).errors_by_day.length = 7 := by
  refine ⟨rfl, rfl, by decide, by decide⟩

/-- C3 (amended): on every nonempty record list, `errors_by_hour` has
exactly the keys 0-23 (each once) and `errors_by_day` exactly the seven
weekday names, and a bucket touched by no incomplete record holds 0; on the
empty list both maps are empty. -/
theorem stats_errors_keys (records : List ValidationRecord) (h : records ≠ []) :
    (keysOf (calculate_statistics records).errors_by_hour).Perm (List.range 24) ∧
    (keysOf (calculate_statistics records).errors_by_day).Perm dayNames ∧
    (∀ hr : Nat, hr < 24 →
      (∀ r ∈ records, r.is_complete = false → ¬r.timestamp.hour.val = hr) →
      (hr, 0) ∈ (calculate_statistics records).errors_by_hour) ∧
    (∀ d ∈ dayNames,
      (∀ r ∈ records, r.is_complete = false → ¬dayName r.timestamp.weekday = d) →
      (d, 0) ∈ (calculate_statistics records).errors_by_day) := by
  have hH : (calculate_statistics records).errors_by_hour = get_errors_by_hour records := by
    rw [calculate_statistics_ne records h]
  have hD : (calculate_statistics records).errors_by_day = get_errors_by_day records := by
    rw [calculate_statistics_ne records h]
  rw [hH, hD]
  refine ⟨?_, ?_, ?_, ?_⟩
  · apply List.perm_of_nodup_nodup_toFinset_eq
    · exact nodup_keysOf_fillKeys _ _ (nodup_keysOf_tally_nil _ _)
    · exact List.nodup_range 24
    · ext x
      simp only [List.mem_toFinset]
      rw [get_errors_by_hour, mem_keysOf_fillKeys, mem_keysOf_tally_nil]
      constructor
      · rintro (⟨r, _, _, rfl⟩ | hx)
        · exact List.mem_range.mpr r.timestamp.hour.isLt
        · exact hx
      · exact Or.inr
  · apply List.perm_of_nodup_nodup_toFinset_eq
    · exact nodup_keysOf_fillKeys _ _ (nodup_keysOf_tally_nil _ _)
    · exact dayNames_nodup
    · ext x
      simp only [List.mem_toFinset]
      rw [get_errors_by_day, mem_keysOf_fillKeys, mem_keysOf_tally_nil]
      constructor
      · rintro (⟨r, _, _, rfl⟩ | hx)
        · exact dayName_mem r.timestamp.weekday
        · exact hx
      · exact Or.inr
  · intro hr hlt hnone
    rw [get_errors_by_hour]
    apply mem_fillKeys_zero _ (List.mem_range.mpr hlt)
    rw [mem_keysOf_tally_nil]
    rintro ⟨r, hrr, hcc, heq⟩
    exact hnone r hrr hcc heq.symm
  · intro d hd hnone
    rw [get_errors_by_day]
    apply mem_fillKeys_zero _ hd
    rw [mem_keysOf_tally_nil]
    rintro ⟨r, hrr, hcc, heq⟩
    exact hnone r hrr hcc heq.symm

/-- Witness evaluating the amended C3 on a one-record list. -/
theorem stats_errors_keys_witness :
    (keysOf (calculate_statistics [wRecord]).errors_by_hour).Perm (List.range 24) :=
  (stats_errors_keys [wRecord] (List.cons_ne_nil _ _)).1

/-- C10: on every nonempty record list the hour buckets and the day buckets
each total `total_orders - complete_orders`, the number of records with
`is_complete` false. -/
theorem stats_errors_sums (records : List ValidationRecord) (h : records ≠ []) :
    ((calculate_statistics records).errors_by_hour.map Prod.snd).sum =
      (calculate_statistics records).total_orders -
        (calculate_statistics records).complete_orders ∧
    ((calculate_statistics records).errors_by_day.map Prod.snd).sum =
      (calculate_statistics records).total_orders -
        (calculate_statistics records).complete_orders ∧
    (calculate_statistics records).total_orders -
        (calculate_statistics records).complete_orders =
      records.countP fun r => !r.is_complete := by
  have key : records.length - (records.filter fun r => r.is_complete).length =
      records.countP fun r => !r.is_complete := by
    have h1 := List.length_eq_countP_add_countP (fun r => r.is_complete) records
    have h2 : (records.countP fun a => decide ¬a.is_complete = true) =
        records.countP fun r => !r.is_complete :=
      List.countP_congr fun r _ => by cases hr : r.is_complete <;> simp [hr]
    have h3 : (records.filter fun r => r.is_complete).length =
        records.countP fun r => r.is_complete :=
      (List.countP_eq_length_filter _ _).symm
    omega
  rw [calculate_statistics_ne records h]
  dsimp only
  refine ⟨?_, ?_, key⟩
  · show valsSum (get_errors_by_hour records) = _
    rw [get_errors_by_hour, valsSum_fillKeys, valsSum_tally_nil]
    exact key.symm
  · show valsSum (get_errors_by_day records) = _
    rw [get_errors_by_day, valsSum_fillKeys, valsSum_tally_nil]
    exact key.symm

/-- Witness evaluating C10 on a one-record list. -/
theorem stats_errors_sums_witness :
    ((calculate_statistics [wRecord]).errors_by_hour.map Prod.snd).sum =
      (calculate_statistics [wRecord]).total_orders -
        (calculate_statistics [wRecord]).complete_orders :=
  (stats_errors_sums [wRecord] (List.cons_ne_nil _ _)).1

/-- Membership in the first-occurrence fold. -/
theorem mem_firstOccur_fold (l : List Item) :
    ∀ (acc : List Item) (x : Item),
      x ∈ l.foldl (fun acc x => if x ∈ acc then acc else acc ++ [x]) acc ↔
        x ∈ acc ∨ x ∈ l := by
  induction l with
  | nil => simp
  | cons a t ih =>
    intro acc x
    rw [List.foldl_cons]
    by_cases h : a ∈ acc
    · rw [if_pos h, ih]
      constructor
      · rintro (hx | hx)
        exacts [Or.inl hx, Or.inr (List.mem_cons_of_mem _ hx)]
      · rintro (hx | hx)
        · exact Or.inl hx
        · rcases List.mem_cons.mp hx with rfl | hx
          exacts [Or.inl h, Or.inr hx]
    · rw [if_neg h, ih]
      simp only [List.mem_append, List.mem_singleton, List.mem_cons]
      tauto

/-- The first-occurrence list has the same members as the original. -/
theorem mem_firstOccur (l : List Item) (x : Item) :
    x ∈ firstOccur l ↔ x ∈ l := by
  rw [firstOccur, mem_firstOccur_fold]
  simp

/-- Membership in the counter: a pair is present exactly when the element
occurs and the count is its multiplicity. -/
theorem mem_counterItems (l : List Item) (x : Item) (c : Nat) :
    (x, c) ∈ counterItems l ↔ x ∈ l ∧ c = l.count x := by
  rw [counterItems, List.mem_map]
  constructor
  · rintro ⟨y, hy, heq⟩
    rw [Prod.mk.injEq] at heq
    obtain ⟨rfl, rfl⟩ := heq
    exact ⟨(mem_firstOccur l y).mp hy, rfl⟩
  · rintro ⟨hx, rfl⟩
    exact ⟨x, (mem_firstOccur l x).mpr hx, rfl⟩

/-- The forgotten-items sort key is transitive. -/
theorem forgottenLe_trans (a b c : Item × Nat) (h1 : forgottenLe a b = true)
    (h2 : forgottenLe b c = true) : forgottenLe a c = true := by
  simp only [forgottenLe, decide_eq_true_eq] at h1 h2 ⊢
  rcases h1 with h1 | ⟨h1, h1s⟩ <;> rcases h2 with h2 | ⟨h2, h2s⟩
  · exact Or.inl (h2.trans h1)
  · exact Or.inl (h2 ▸ h1)
  · rw [h1]
    exact Or.inl h2
  · exact Or.inr ⟨h1.trans h2, h1s.trans h2s⟩

/-- The forgotten-items sort key is total. -/
theorem forgottenLe_total (a b : Item × Nat) :
    (forgottenLe a b || forgottenLe b a) = true := by
  simp only [forgottenLe, Bool.or_eq_true, decide_eq_true_eq]
  rcases Nat.lt_trichotomy a.2 b.2 with h | h | h
  · exact Or.inr (Or.inl h)
  · rcases le_total a.1.value b.1.value with hs | hs
    · exact Or.inl (Or.inr ⟨h, hs⟩)
    · exact Or.inr (Or.inr ⟨h.symm, hs⟩)
  · exact Or.inl (Or.inl h)

/-- C5: `most_forgotten_items` holds exactly the pairs `(item, c)` where
`c` is the item's positive number of occurrences among the missing lists of
incomplete records (one count per occurrence, quantities ignored, count-0
items excluded), sorted by count descending with ties broken by the item's
display value ascending. -/
theorem most_forgotten_spec (records : List ValidationRecord) :
    (∀ (it : Item) (c : Nat),
      (it, c) ∈ (calculate_statistics records).most_forgotten_items ↔
        (0 < (forgottenItems records).count it ∧
          c = (forgottenItems records).count it)) ∧
    List.Pairwise
      (fun a b : Item × Nat => b.2 < a.2 ∨ (a.2 = b.2 ∧ a.1.value ≤ b.1.value))
      (calculate_statistics records).most_forgotten_items := by
  by_cases h : records = []
  · subst h
    constructor
    · intro it c
      constructor
      · rintro hmem
        simp [calculate_statistics] at hmem
      · rintro ⟨hpos, _⟩
        simp [forgottenItems] at hpos
    · simp [calculate_statistics]
  · have hM : (calculate_statistics records).most_forgotten_items =
        get_most_forgotten_items records := by
      rw [calculate_statistics_ne records h]
    rw [hM, get_most_forgotten_items]
    constructor
    · intro it c
      rw [(List.mergeSort_perm (counterItems (forgottenItems records)) forgottenLe).mem_iff,
        mem_counterItems, List.count_pos_iff]
    · have hs := List.sorted_mergeSort forgottenLe_trans forgottenLe_total
        (counterItems (forgottenItems records))
      refine hs.imp ?_
      intro a b hab
      simpa only [forgottenLe, decide_eq_true_eq] using hab

/-- Witness evaluating C5 on a one-record list with one missing MOCHI. -/
theorem most_forgotten_spec_witness :
    (Item.MOCHI, 1) ∈ (calculate_statistics [wRecord]).most_forgotten_items :=
  ((most_forgotten_spec [wRecord]).1 Item.MOCHI 1).mpr ⟨by decide, by decide⟩

/-- Membership in a conditional singleton. -/
theorem mem_ite_singleton {α : Type} (c : Prop) [Decidable c] (a x : α) :
    x ∈ (if c then [a] else ([] : List α)) ↔ c ∧ x = a := by
  by_cases h : c
  · simp [h]
  · simp [h]

/-- Full characterization of the trend block of `detect_alerts`. -/
theorem mem_trendAlerts_iff (records : List ValidationRecord) (x : Alert) :
    x ∈ trendAlerts records ↔
      14 ≤ records.length ∧ 0 < olderErrors records ∧
        50 < errorIncrease (recentErrors records) (olderErrors records) ∧
        x = Alert.trendSpike
          (errorIncrease (recentErrors records) (olderErrors records))
          (recentErrors records) (olderErrors records) := by
  by_cases h14 : 14 ≤ records.length <;>
    by_cases hoe : 0 < olderErrors records <;>
      by_cases hinc : 50 < errorIncrease (recentErrors records) (olderErrors records) <;>
        simp [trendAlerts, h14, hoe, hinc]

/-- Every element of the forgotten-item block is a forgotten-item alert. -/
theorem mem_forgottenAlert_shape (stats : Statistics) (x : Alert)
    (h : x ∈ forgottenAlert stats) : ∃ ti tc, x = Alert.forgottenItem ti tc := by
  rw [forgottenAlert] at h
  rcases hm : stats.most_forgotten_items with _ | ⟨⟨ti, tc⟩, rest⟩ <;>
    rw [hm] at h <;> dsimp only at h
  · cases h
  · by_cases h5 : 5 ≤ tc
    · rw [if_pos h5] at h
      rcases List.mem_singleton.mp h with rfl
      exact ⟨ti, tc, rfl⟩
    · rw [if_neg h5] at h
      cases h

/-- Every element of the peak-hours block is a peak-hours alert. -/
theorem mem_peakAlert_shape (stats : Statistics) (x : Alert)
    (h : x ∈ peakAlert stats) : ∃ hs me, x = Alert.peakHours hs me := by
  rw [peakAlert] at h
  by_cases he : stats.errors_by_hour.isEmpty
  · rw [if_pos he] at h
    cases h
  · rw [if_neg he] at h
    dsimp only at h
    split at h
    · rcases List.mem_singleton.mp h with rfl
      exact ⟨_, _, rfl⟩
    · cases h

/-- C6: `detect_alerts` raises a trend-spike alert on fewer than 14 records
never; on at least 14 records it raises one exactly when the older window
(positions 7-13 of the descending sort by timestamp) has at least one error
and the percentage increase of the recent window over it exceeds 50; in
particular a zero older count skips the rule. -/
theorem detect_alerts_trend_spec (stats : Statistics)
    (records : List ValidationRecord) (et ct : Rat) :
    (records.length < 14 →
      ∀ (inc : Rat) (re oe : Nat),
        Alert.trendSpike inc re oe ∉ detect_alerts stats records et ct) ∧
    (14 ≤ records.length →
      ((∃ (inc : Rat) (re oe : Nat),
          Alert.trendSpike inc re oe ∈ detect_alerts stats records et ct) ↔
        (0 < olderErrors records ∧
          50 < ((recentErrors records : Rat) - ((olderErrors records : Nat) : Rat)) /
            ((olderErrors records : Nat) : Rat) * 100))) := by
  have hmem : ∀ (inc : Rat) (re oe : Nat),
      Alert.trendSpike inc re oe ∈ detect_alerts stats records et ct ↔
        (¬records = [] ∧ Alert.trendSpike inc re oe ∈ trendAlerts records) := by
    intro inc re oe
    rw [detect_alerts]
    by_cases h : records.isEmpty
    · rw [if_pos h]
      rw [List.isEmpty_iff] at h
      simp [h]
    · rw [if_neg h]
      have h2 : ¬records = [] := by simpa [List.isEmpty_iff] using h
      have h4 := mem_forgottenAlert_shape stats (Alert.trendSpike inc re oe)
      have h5 := mem_peakAlert_shape stats (Alert.trendSpike inc re oe)
      simp only [List.mem_append, mem_ite_singleton, h2, not_false_iff, true_and]
      constructor
      · rintro ((((⟨_, heq⟩ | ⟨_, heq⟩) | ht) | hf) | hp)
        · cases heq
        · cases heq
        · exact ht
        · obtain ⟨ti, tc, heq⟩ := h4 hf
          cases heq
        · obtain ⟨hs, me, heq⟩ := h5 hp
          cases heq
      · intro ht
        exact Or.inl (Or.inl (Or.inr ht))
  constructor
  · intro hlt inc re oe hm
    rw [hmem] at hm
    rw [mem_trendAlerts_iff] at hm
    omega
  · intro h14
    have hne : ¬records = [] := by
      intro he
      rw [he] at h14
      simp at h14
    constructor
    · rintro ⟨inc, re, oe, hm⟩
      rw [hmem] at hm
      obtain ⟨-, ht⟩ := hm
      rw [mem_trendAlerts_iff] at ht
      obtain ⟨-, hoe, hinc, -⟩ := ht
      rw [errorIncrease, if_pos hoe] at hinc
      exact ⟨hoe, hinc⟩
    · rintro ⟨hoe, hinc⟩
      refine ⟨errorIncrease (recentErrors records) (olderErrors records),
        recentErrors records, olderErrors records, ?_⟩
      rw [hmem]
      refine ⟨hne, ?_⟩
      rw [mem_trendAlerts_iff]
      exact ⟨h14, hoe, by rw [errorIncrease, if_pos hoe]; exact hinc, rfl⟩

/-- Witness applying C6 to an empty record list: no trend alert. -/
theorem detect_alerts_trend_spec_witness :
    Alert.trendSpike 100 5 1 ∉
      detect_alerts (calculate_statistics []) [] 20 95 :=
  (detect_alerts_trend_spec (calculate_statistics []) [] 20 95).1 (by decide) 100 5 1

/-- C9: with the default thresholds, the completion rate `detect_alerts`
computes from `calculate_statistics` equals 100 minus the error rate, so
whenever the critical high-error-rate alert fires (error rate above 20) the
low-completion warning (completion rate below 95) fires too. -/
theorem high_error_implies_low_completion (records : List ValidationRecord)
    (h : records ≠ []) :
    completionRate (calculate_statistics records) =
      100 - (calculate_statistics records).error_rate ∧
    ((∃ r t : Rat, Alert.highErrorRate r t ∈
        detect_alerts (calculate_statistics records) records 20 95) →
      ∃ r t : Rat, Alert.lowCompletion r t ∈
        detect_alerts (calculate_statistics records) records 20 95) := by
  have hlen : 0 < records.length := List.length_pos.mpr h
  have hT : ((records.length : Nat) : Rat) ≠ 0 := by
    have hz : records.length ≠ 0 := by omega
    exact_mod_cast hz
  have hcomp : completionRate (calculate_statistics records) =
      100 - (calculate_statistics records).error_rate := by
    rw [calculate_statistics_ne records h, completionRate]
    dsimp only
    rw [if_pos hlen, if_pos hlen]
    field_simp
    ring
  refine ⟨hcomp, ?_⟩
  rintro ⟨r, t, hm⟩
  have hne_b : ¬records.isEmpty = true := by simpa [List.isEmpty_iff] using h
  rw [detect_alerts, if_neg hne_b] at hm
  simp only [List.mem_append, mem_ite_singleton] at hm
  have hc : 20 < (calculate_statistics records).error_rate := by
    rcases hm with ((((⟨hc, heq⟩ | ⟨-, heq⟩) | ht) | hf) | hp)
    · exact hc
    · cases heq
    · rw [mem_trendAlerts_iff] at ht
      obtain ⟨-, -, -, heq⟩ := ht
      cases heq
    · obtain ⟨ti, tc, heq⟩ := mem_forgottenAlert_shape _ _ hf
      cases heq
    · obtain ⟨hs, me, heq⟩ := mem_peakAlert_shape _ _ hp
      cases heq
  refine ⟨completionRate (calculate_statistics records), 95, ?_⟩
  rw [detect_alerts, if_neg hne_b]
  simp only [List.mem_append, mem_ite_singleton]
  have hlow : completionRate (calculate_statistics records) < 95 := by
    rw [hcomp]
    linarith
  exact Or.inl (Or.inl (Or.inl (Or.inr ⟨hlow, trivial⟩)))

/-- Witness applying C9 to a one-record list whose single validation is
incomplete: the error rate is 100, the high-error alert fires, so the
low-completion warning is present. -/
theorem high_error_implies_low_completion_witness :
    ∃ r t : Rat, Alert.lowCompletion r t ∈
      detect_alerts (calculate_statistics [wRecord]) [wRecord] 20 95 :=
  (high_error_implies_low_completion [wRecord] (List.cons_ne_nil _ _)).2
    ⟨(calculate_statistics [wRecord]).error_rate, 20, by
      rw [detect_alerts, if_neg (by simp)]
      simp only [List.mem_append, mem_ite_singleton]
      refine Or.inl (Or.inl (Or.inl (Or.inl ⟨?_, trivial⟩)))
      rw [calculate_statistics_ne [wRecord] (List.cons_ne_nil _ _)]
      dsimp only
      norm_num [wRecord, List.filter]⟩
